import Mathlib

/-!
Verification of the Streams protocol engine core against its source.

The development shallowly embeds the parts of the repository that the
properties below talk about:

* the `Identifier` tagged union and its byte encoding
  (`src/iota-streams-app/src/identifier.rs`),
* the three DDML contexts (sizeof / wrap / unwrap) restricted to the
  commands the `Identifier` and `Announce` schemas use,
* the sponge (`Spongos`) duplex state, modelled from the spec since the
  permutation core is not part of the source tree under inspection,
* the `Announce` message wrap/unwrap round trip
  (`src/streams/src/message/announcement.rs`),
* the default `Transport::recv_message` convenience
  (`src/lets/src/transport/mod.rs`),
* the `MessagesState::next` reorder-tolerant iterator
  (`src/iota-streams/src/api/messages.rs`) as an explicit fuel-indexed
  state machine.

Machine integers are modelled as `Nat` (byte values stay below 256 by
construction: every byte-producing operation reduces modulo 256).
Fallible code returns `Option` or `Except`.
-/

namespace Streams

/-! ## Sponge core (Spongos)

Modelled from the spec: the duplex sponge state is a fixed-width byte
array evolved by a cryptographic permutation; `absorb` mixes public
input into the state, `squeeze` extracts bytes deterministically from
the current state, `mask` XOR-streams data with squeezed bytes and
absorbs the ciphertext, and `commit` applies the permutation.  The
permutation core itself (`spongos/src/core`) is not under `src/`, so the
state is modelled as the transcript of absorbed data and the squeeze as
an arbitrary fixed deterministic byte-valued function of the state; the
only spec properties relied upon are determinism (identical operation
sequences on identical states give identical squeezes) and the XOR
involutivity of masking. -/

/-- Modelled from the spec: sponge state, as the transcript of absorbed
bytes (the permutation is folded into the deterministic `squeezeByte`
read-out function). -/
structure Spongos where
  state : List Nat
deriving DecidableEq

/-- Absorb bytes into the sponge state. -/
def Spongos.absorbBytes (s : Spongos) (x : List Nat) : Spongos :=
  ⟨x ++ 251 :: s.state⟩

/-- Deterministic mixing of a byte transcript into a single byte. -/
def mixBytes (l : List Nat) : Nat :=
  l.foldl (fun a b => (a * 31 + b + 1) % 256) 7

/-- Deterministic squeeze read-out: byte `i` of the current state. -/
def Spongos.squeezeByte (s : Spongos) (i : Nat) : Nat :=
  (mixBytes s.state + 37 * i) % 256

/-- Squeeze `n` bytes from the sponge (deterministic in the state). -/
def Spongos.squeezeBytes (s : Spongos) (n : Nat) : List Nat :=
  (List.range n).map s.squeezeByte

/-- Modelled from the spec: `commit` applies the permutation and zeroes
the rate position, separating message sections. -/
def Spongos.commit (s : Spongos) : Spongos :=
  ⟨253 :: s.state⟩

/-- Pointwise XOR of two byte lists (truncates to the shorter one). -/
def zipXor : List Nat → List Nat → List Nat
  | x :: xs, k :: ks => (x ^^^ k) :: zipXor xs ks
  | _, _ => []

/-! ## DDML primitive commands over the sponge

Wrap contexts emit bytes, unwrap contexts consume them; both evolve the
sponge state identically, which is the source of the round-trip
properties ("a message schema is the same code path re-executed under
each context"). -/

/-- Wrap-side `absorb` of raw bytes: emit them and absorb them. -/
def absorbWrap (s : Spongos) (x : List Nat) : Spongos × List Nat :=
  (s.absorbBytes x, x)

/-- Unwrap-side `absorb`: read `n` raw bytes from the input and absorb
them; fails when the stream is exhausted. -/
def absorbUnwrap (s : Spongos) (input : List Nat) (n : Nat) :
    Option (Spongos × List Nat × List Nat) :=
  if n ≤ input.length then
    some (s.absorbBytes (input.take n), input.take n, input.drop n)
  else none

/-- Wrap-side `mask`: XOR the plaintext with squeezed key bytes, emit
the ciphertext and absorb it. -/
def maskWrap (s : Spongos) (x : List Nat) : Spongos × List Nat :=
  let c := zipXor x (s.squeezeBytes x.length)
  (s.absorbBytes c, c)

/-- Unwrap-side `mask`: read `n` ciphertext bytes, XOR with the same
squeezed key bytes to recover the plaintext, absorb the ciphertext. -/
def maskUnwrap (s : Spongos) (input : List Nat) (n : Nat) :
    Option (Spongos × List Nat × List Nat) :=
  if n ≤ input.length then
    some (s.absorbBytes (input.take n), zipXor (input.take n) (s.squeezeBytes n), input.drop n)
  else none

/-! ## Identifier (`src/iota-streams-app/src/identifier.rs`)

The tagged union `Identifier = EdPubKey(pk[32]) | PskId(id[16])`.
Fixed-size byte arrays (`[u8; 32]`, `[u8; 16]`) are modelled as plain
byte lists together with the well-formedness predicate `Identifier.wf`
fixing their lengths. -/

inductive Identifier where
  | edPubKey (pk : List Nat)
  | pskId (id : List Nat)
deriving DecidableEq

/-- Well-formedness: an Ed25519 public key is 32 bytes, a PskId 16. -/
def Identifier.wf : Identifier → Prop
  | .edPubKey pk => pk.length = 32
  | .pskId id => id.length = 16

instance : DecidablePred Identifier.wf := by
  intro id; cases id <;> simp [Identifier.wf] <;> infer_instance

/-- Embedding of `Identifier::to_bytes` (identifier.rs lines 39-44): the
Ed25519 variant yields the public-key bytes, the PskId variant the id
bytes; no discriminator byte is emitted. -/
def Identifier.to_bytes : Identifier → List Nat
  | .edPubKey pk => pk
  | .pskId id => id

/-- Errors of the iota-streams-core error enum that this file needs. -/
inductive StreamsErr where
  | identifierGenerationFailure
  | badOneof
  | badSignature
  | streamEnd
deriving DecidableEq

/-- Embedding of `Identifier::from_bytes` (identifier.rs lines 46-52):
dispatch on the input length, 32 bytes giving an Ed25519 public key and
16 bytes a PskId; any other length is `IdentifierGenerationFailure`.
(`ed25519::PublicKey::from_bytes` is modelled as accepting every
32-byte string; the source only ever round-trips bytes obtained from a
valid key.) -/
def Identifier.from_bytes (bytes : List Nat) : Except StreamsErr Identifier :=
  if bytes.length = 32 then .ok (.edPubKey bytes)
  else if bytes.length = 16 then .ok (.pskId bytes)
  else .error .identifierGenerationFailure

/-! ### Identifier DDML schemas (sizeof / wrap / unwrap) -/

/-- Embedding of `ContentSizeof for Identifier` (identifier.rs lines
71-88): one byte for the `oneof` discriminator plus the fixed payload
size (the payload lists are fixed-size arrays in the source, so their
length is the size the sizeof context adds). -/
def idSizeof : Identifier → Nat
  | .edPubKey pk => 1 + pk.length
  | .pskId id => 1 + id.length

/-- Embedding of `ContentWrap for Identifier` (identifier.rs lines
90-112): absorb the discriminator byte (0 or 1), then absorb the public
key respectively mask the PskId. -/
def idWrap (s : Spongos) : Identifier → Spongos × List Nat
  | .edPubKey pk =>
    let r0 := absorbWrap s [0]
    let r1 := absorbWrap r0.1 pk
    (r1.1, r0.2 ++ r1.2)
  | .pskId id =>
    let r0 := absorbWrap s [1]
    let r1 := maskWrap r0.1 id
    (r1.1, r0.2 ++ r1.2)

/-- Embedding of `unwrap_new` / `ContentUnwrap for Identifier`
(identifier.rs lines 114-166): absorb the `oneof` discriminator byte;
tag 0 absorbs a 32-byte Ed25519 public key, tag 1 masks a 16-byte
PskId, any other tag fails with `BadOneof`. -/
def unwrap_new (s : Spongos) (input : List Nat) :
    Except StreamsErr (Identifier × Spongos × List Nat) :=
  match absorbUnwrap s input 1 with
  | none => .error .streamEnd
  | some (s1, tagBytes, r1) =>
    match tagBytes.head? with
    | none => .error .streamEnd
    | some t =>
      if t = 0 then
        match absorbUnwrap s1 r1 32 with
        | none => .error .streamEnd
        | some (s2, pk, r2) => .ok (.edPubKey pk, s2, r2)
      else if t = 1 then
        match maskUnwrap s1 r1 16 with
        | none => .error .streamEnd
        | some (s2, id, r2) => .ok (.pskId id, s2, r2)
      else .error .badOneof

/-! ## Transport `recv_message` (`src/lets/src/transport/mod.rs`) -/

/-- Addresses are opaque for the transport model. -/
structure Address where
  app : Nat
  msg : Nat
deriving DecidableEq

/-- The LETS error variants `recv_message` can produce.  The source
carries a static string and the address inside `Error::AddressError`. -/
inductive LetsError where
  | addressError (s : String) (addr : Address)
  | other
deriving DecidableEq

/-- Embedding of the provided method `Transport::recv_message`
(transport/mod.rs lines 37-49): delegate to `recv_messages` (whose
outcome is passed in as `fetched`), `pop` the last element of the
returned vector, succeed when nothing else remains, and otherwise fail
with the corresponding `AddressError`. -/
def recv_message (addr : Address) (fetched : Except LetsError (List Nat)) :
    Except LetsError Nat :=
  match fetched with
  | .error e => .error e
  | .ok msgs =>
    match msgs.getLast? with
    | some m =>
      if msgs.dropLast.isEmpty then .ok m
      else .error (.addressError "More than one found" addr)
    | none => .error (.addressError "not found in transport" addr)

/-! ## Identity, signing and the Announce message
(`src/streams/src/message/announcement.rs`)

The announcement schema is in the source (`mask` the author identifier,
`sign`, `commit`); the `sign`/`verify` commands and the `Identity` type
live in crates not under `src/`, so they are modelled from the spec. -/

/-- Modelled from the spec: an `Identity` holds the secret signing
material and can always expose its `Identifier`; the announce author is
an Ed25519 identity. -/
structure Identity where
  sk : Nat

/-- Deterministic public key derived from the secret scalar (32 bytes,
standing in for the Ed25519 public key derivation). -/
def pkOf (sk : Nat) : List Nat :=
  (List.range 32).map (fun i => (sk + 13 * i + 5) % 256)

/-- The identifier exposed by an identity. -/
def Identity.identifier (i : Identity) : Identifier :=
  .edPubKey (pkOf i.sk)

/-- Modelled from the spec: `Identity::sign` signs the 64-byte hash
squeezed by the sponge; the signature scheme is modelled as a
deterministic keyed transform of the hash (only the sign/verify
round-trip property of Ed25519 is used). -/
def signHash (i : Identity) (h : List Nat) : List Nat :=
  h.map (fun b => (b + mixBytes (pkOf i.sk) + 1) % 256)

/-- Modelled from the spec: signature verification against the public
key carried by an identifier (PSK identities do not sign; the announce
schema only verifies Ed25519 authors). -/
def verifySig (id : Identifier) (sig h : List Nat) : Bool :=
  match id with
  | .edPubKey pk => sig = h.map (fun b => (b + mixBytes pk + 1) % 256)
  | .pskId _ => false

/-- Discriminator byte of the identifier `oneof` schema. -/
def Identifier.tag : Identifier → Nat
  | .edPubKey _ => 0
  | .pskId _ => 1

/-- Payload bytes of the identifier schema. -/
def Identifier.payload : Identifier → List Nat
  | .edPubKey pk => pk
  | .pskId id => id

/-- Embedding of `ContentWrap for announcement::Wrap` (announcement.rs
lines 64-75): mask the author identifier (discriminator byte, then the
payload), sign (squeeze a 64-byte external hash and absorb the
signature), commit. -/
def wrapAnnounce (s0 : Spongos) (i : Identity) : Spongos × List Nat :=
  let r1 := maskWrap s0 [(i.identifier).tag]
  let r2 := maskWrap r1.1 (i.identifier).payload
  let h := r2.1.squeezeBytes 64
  let r3 := absorbWrap r2.1 (signHash i h)
  (r3.1.commit, r1.2 ++ (r2.2 ++ r3.2))

/-- The `announcement::Unwrap` result (announcement.rs lines 77-97):
the recovered author identifier. -/
structure AnnounceUnwrap where
  author_id : Identifier
deriving DecidableEq

/-- Embedding of `ContentUnwrap for announcement::Unwrap`
(announcement.rs lines 99-112): mask-read the author identifier
(discriminator byte, then 32 or 16 payload bytes according to the tag;
an unknown tag is a `BadOneof` hard error), verify the signature
against the recovered identifier, commit. -/
def unwrapAnnounce (s0 : Spongos) (input : List Nat) :
    Except StreamsErr (Spongos × AnnounceUnwrap) :=
  match maskUnwrap s0 input 1 with
  | none => .error .streamEnd
  | some (s1, tagBytes, r1) =>
    match tagBytes.head? with
    | none => .error .streamEnd
    | some t =>
      match (if t = 0 then some 32 else if t = 1 then some 16 else none) with
      | none => .error .badOneof
      | some n =>
        match maskUnwrap s1 r1 n with
        | none => .error .streamEnd
        | some (s2, payload, r2) =>
          let author : Identifier :=
            if t = 0 then .edPubKey payload else .pskId payload
          let h := s2.squeezeBytes 64
          match absorbUnwrap s2 r2 64 with
          | none => .error .streamEnd
          | some (s3, sig, _) =>
            if verifySig author sig h then .ok (s3.commit, ⟨author⟩)
            else .error .badSignature

/-! ## The Messages iterator (`src/iota-streams/src/api/messages.rs`)

`MessagesState::next` is an async recursive function; it is embedded as
a fuel-indexed state machine, one fuel unit per recursive
`self.next().await` call.  Identifiers, relative addresses, base
addresses and raw transport blobs are opaque (`Nat`).  The surrounding
`User` is a type parameter `U`, accessed only through the operations
the iterator calls (`Env` below); `handle_message` may mutate it. -/

/-- A handled message as the iterator sees it (`api::message::Message`):
its relative address, the header's `linked_msg_address`, whether the
content is the `MessageContent::Orphan` variant, and (for orphans) the
retained raw message. -/
structure IterMsg where
  addressRel : Nat
  linked : Option Nat
  orphanContent : Bool
  orphanMsg : Nat
deriving DecidableEq

/-- Outcome of `user.handle_message`: `Ok(message)` or a handling
error (`Err` in the source, whose payload the iterator discards). -/
inductive HandleRes where
  | ok (m : IterMsg)
  | err
deriving DecidableEq

/-- The operations of the user and its collaborators that
`MessagesState::next` invokes.  `transport base rel = none` models
`recv_message` returning `Err(..)` (message not found or network
error); `genRel b p c` is `AG::default().gen((b, p, c))`, already
applied to the incremented cursor by the machine. -/
structure Env (U : Type) where
  streamAddress : U → Option Nat
  cursors : U → List (Nat × Nat)
  handleMessage : U → Nat → Nat → Nat → HandleRes × U
  genRel : Nat → Nat → Nat → Nat
  transport : Nat → Nat → Option Nat

/-- The fields of `MessagesState` (messages.rs lines 608-618).  The
`HashMap`/`VecDeque` collections are modelled as association lists and
plain lists; `stage` has its front at the head, `ids_stack` pops from
the tail (as `Vec::pop` does). -/
structure MState (U : Type) where
  user : U
  ids_stack : List (Nat × Nat)
  msg_queue : List (Nat × List (Nat × Nat))
  stage : List (Nat × Nat)
  successful_round : Bool
deriving DecidableEq

/-- The state `MessagesState::new` builds (messages.rs lines 625-633). -/
def initState (u : U) : MState U :=
  ⟨u, [], [], [], false⟩

/-- Push a value to the back of `msg_queue[key]`
(`entry(key).or_default().push_back(v)`). -/
def mqPush (q : List (Nat × List (Nat × Nat))) (key : Nat) (v : Nat × Nat) :
    List (Nat × List (Nat × Nat)) :=
  match q with
  | [] => [(key, [v])]
  | (k, l) :: rest =>
    if k = key then (k, l ++ [v]) :: rest else (k, l) :: mqPush rest key v

/-- Remove `msg_queue[key]`, returning the queued messages (if the key
was present) and the remaining map (`msg_queue.remove(key)`). -/
def mqRemove (q : List (Nat × List (Nat × Nat))) (key : Nat) :
    Option (List (Nat × Nat)) × List (Nat × List (Nat × Nat)) :=
  match q with
  | [] => (none, [])
  | (k, l) :: rest =>
    if k = key then (some l, rest)
    else
      let r := mqRemove rest key
      (r.1, (k, l) :: r.2)

/-- One activation of `MessagesState::next` can yield a message, report
end-of-stream (`None`), or run out of fuel (standing for a deeper
recursion than the fuel allows).  The yielded item is an
`Except`, mirroring `Option<Result<Message>>`, so that "errors are
never yielded" is expressible. -/
inductive NextRes (U : Type) where
  | yield (r : Except Unit IterMsg) (s : MState U)
  | finished (s : MState U)
  | outOfFuel (s : MState U)

/-- Embedding of `MessagesState::next` (messages.rs lines 639-732).

With a staged message: pop it from the front of `stage`; if
`stream_address` is `None` the `?` operator returns `None`; otherwise
handle the message.  `Ok` with `Orphan` content and a present
`linked_msg_address` pushes the retained message to the back of
`msg_queue[linked]` and recurses; any other `Ok` drains
`msg_queue[message.address().relative()]` into `stage` and yields the
message; a handling error recurses.

With an empty stage: pop `(publisher, cursor)` from the tail of
`ids_stack`, or start a new round from `user.cursors()` (resetting
`successful_round`; an empty cursor iterator ends the stream via `?`);
if `stream_address` is `None` the `?` returns `None`; otherwise derive
the next address with the incremented cursor and fetch it.  A fetched
message is staged and `successful_round` is set; a fetch failure ends
the stream when `ids_stack` is exhausted and the round produced
nothing, and recurses otherwise. -/
def next (env : Env U) : Nat → MState U → NextRes U
  | 0, s => .outOfFuel s
  | fuel + 1, s =>
    match s.stage with
    | (rel, bmsg) :: stageRest =>
      match env.streamAddress s.user with
      | none => .finished ⟨s.user, s.ids_stack, s.msg_queue, stageRest, s.successful_round⟩
      | some base =>
        match env.handleMessage s.user base rel bmsg with
        | (.ok m, u') =>
          match m.orphanContent, m.linked with
          | true, some l =>
            next env fuel
              ⟨u', s.ids_stack, mqPush s.msg_queue l (rel, m.orphanMsg), stageRest,
                s.successful_round⟩
          | true, none =>
            .yield (.ok m)
              ⟨u', s.ids_stack, (mqRemove s.msg_queue m.addressRel).2,
                stageRest ++ ((mqRemove s.msg_queue m.addressRel).1.getD []),
                s.successful_round⟩
          | false, _ =>
            .yield (.ok m)
              ⟨u', s.ids_stack, (mqRemove s.msg_queue m.addressRel).2,
                stageRest ++ ((mqRemove s.msg_queue m.addressRel).1.getD []),
                s.successful_round⟩
        | (.err, u') =>
          next env fuel ⟨u', s.ids_stack, s.msg_queue, stageRest, s.successful_round⟩
    | [] =>
      match s.ids_stack.getLast? with
      | some (p, c) =>
        match env.streamAddress s.user with
        | none =>
          .finished ⟨s.user, s.ids_stack.dropLast, s.msg_queue, [], s.successful_round⟩
        | some base =>
          match env.transport base (env.genRel base p (c + 1)) with
          | some msg =>
            next env fuel
              ⟨s.user, s.ids_stack.dropLast, s.msg_queue,
                [(env.genRel base p (c + 1), msg)], true⟩
          | none =>
            match s.ids_stack.dropLast, s.successful_round with
            | [], false => .finished ⟨s.user, [], s.msg_queue, [], false⟩
            | stack, sr => next env fuel ⟨s.user, stack, s.msg_queue, [], sr⟩
      | none =>
        match env.cursors s.user with
        | [] => .finished ⟨s.user, [], s.msg_queue, [], false⟩
        | (p, c) :: cs =>
          match env.streamAddress s.user with
          | none => .finished ⟨s.user, cs, s.msg_queue, [], false⟩
          | some base =>
            match env.transport base (env.genRel base p (c + 1)) with
            | some msg =>
              next env fuel
                ⟨s.user, cs, s.msg_queue, [(env.genRel base p (c + 1), msg)], true⟩
            | none =>
              match cs with
              | [] => .finished ⟨s.user, [], s.msg_queue, [], false⟩
              | stack => next env fuel ⟨s.user, stack, s.msg_queue, [], false⟩

/-- Collect up to `k` yielded messages by repeatedly calling `next`
(each call with `fuel` recursion budget); stops at the first
end-of-stream, fuel exhaustion, or (never-occurring) error item. -/
def runY (env : Env U) : Nat → Nat → MState U → List IterMsg × MState U
  | 0, _, s => ([], s)
  | k + 1, fuel, s =>
    match next env fuel s with
    | .yield (.ok m) s' =>
      let r := runY env k fuel s'
      (m :: r.1, r.2)
    | .yield (.error _) s' => ([], s')
    | .finished s' => ([], s')
    | .outOfFuel s' => ([], s')

/-! ## `Messages::filter_branch` (messages.rs lines 764-787)

The combinator is `try_skip_while(predicate)` followed by a `scan` whose
state is the last yielded address (initially `None`) and a
`try_filter_map` dropping the messages the scan maps to `None`.  It is
embedded as a function on the list of messages the underlying stream
yields (error items pass through the combinators unchanged and are
orthogonal to the claim, so the embedding works on the message list). -/

/-- The scan step of `filter_branch`: a message without a
`linked_msg_address` is mapped to `None` (the closure's early return);
otherwise the branch anchor is initialised to the message's linked
address if unset (`get_or_insert_with`), the message is yielded exactly
when its linked address equals the anchor, and the anchor advances to
the yielded message's own relative address. -/
def scanBranch : Option Nat → List IterMsg → List IterMsg
  | _, [] => []
  | anchor, m :: rest =>
    match m.linked with
    | none => scanBranch anchor rest
    | some l =>
      let b := anchor.getD l
      if l = b then m :: scanBranch (some m.addressRel) rest
      else scanBranch (some b) rest

/-- Embedding of `Messages::filter_branch(predicate)`: skip messages
while the predicate holds, then keep the single linear branch starting
at the first surviving message with a present linked address. -/
def filter_branch (pred : IterMsg → Bool) (msgs : List IterMsg) : List IterMsg :=
  scanBranch none (msgs.dropWhile pred)

/-- A list of messages forms a linear branch: each message after the
first links to the relative address of its immediate predecessor. -/
def linkedChain : List IterMsg → Prop
  | [] => True
  | [_] => True
  | m :: m' :: rest => m'.linked = some m.addressRel ∧ linkedChain (m' :: rest)

/-- Topological soundness of a yield sequence relative to a set of
initially known parent addresses: every message's linked address, when
present, is either initially known or the address of an earlier message
in the sequence. -/
def topoChain (known : List Nat) : List IterMsg → Prop
  | [] => True
  | m :: rest => (∀ p, m.linked = some p → p ∈ known) ∧ topoChain (m.addressRel :: known) rest

/-! ### Hypotheses on `handle_message` for the topological-order claim

`K u` abstracts the set of relative addresses whose Spongos snapshot the
user `u` knows (the key set of `spongos_store`).  The claim's hypothesis
is that `handle_message` reports a message as `Orphan` whenever its
declared parent's snapshot is not yet known; the store-evolution
conditions formalise §4.F of the spec: a successfully handled message
inserts (at most) its own snapshot, an orphaned or failed handling
inserts nothing. -/

/-- A successfully handled message whose declared parent is not yet
known is reported with `Orphan` content. -/
def OrphanWhenUnknown (env : Env U) (K : U → List Nat) : Prop :=
  ∀ u base rel bm m u', env.handleMessage u base rel bm = (.ok m, u') →
    ∀ p, m.linked = some p → ¬ p ∈ K u → m.orphanContent = true

/-- Handling a message adds at most that message's own relative address
to the known-snapshot set. -/
def SnapshotGrowth (env : Env U) (K : U → List Nat) : Prop :=
  ∀ u base rel bm m u', env.handleMessage u base rel bm = (.ok m, u') →
    ∀ x, x ∈ K u' → x ∈ K u ∨ x = m.addressRel

/-- Handling that reports an orphan (whose body was not unwrapped) does
not grow the known-snapshot set. -/
def OrphanNoGrowth (env : Env U) (K : U → List Nat) : Prop :=
  ∀ u base rel bm m u', env.handleMessage u base rel bm = (.ok m, u') →
    m.orphanContent = true → ∀ x, x ∈ K u' → x ∈ K u

/-- Handling that fails does not grow the known-snapshot set. -/
def ErrNoGrowth (env : Env U) (K : U → List Nat) : Prop :=
  ∀ u base rel bm u', env.handleMessage u base rel bm = (.err, u') →
    ∀ x, x ∈ K u' → x ∈ K u

/-- Soundness invariant of a single `next` outcome with respect to a
set `S` of addresses that over-approximates the known snapshots: a
yielded item is an `Ok` message whose linked parent (if any) lies in
`S`, and the known set grows by at most that message's address; an
end-of-stream leaves the known set inside `S`. -/
def NextOkChain (K : U → List Nat) (S : List Nat) : NextRes U → Prop
  | .yield r s' =>
    ∃ m, r = .ok m ∧ (∀ p, m.linked = some p → p ∈ S) ∧
      (∀ x, x ∈ K s'.user → x ∈ S ∨ x = m.addressRel)
  | .finished s' => ∀ x, x ∈ K s'.user → x ∈ S
  | .outOfFuel _ => True

/-! ### Concrete environments used by witnesses and counterexamples -/

/-- Degenerate user with no stream address and no cursors; every
handling attempt fails. -/
def envW : Env Unit where
  streamAddress := fun _ => none
  cursors := fun _ => []
  handleMessage := fun u _ _ _ => (.err, u)
  genRel := fun _ _ _ => 0
  transport := fun _ _ => none

/-- Environment whose user state is the known-snapshot set itself
(`K = id`): a fetched message is handled successfully (inserting its
address) when its declared parent `900` is known and reported as an
orphan otherwise; the single publisher `1` has one message at the
derived address `101`. -/
def envC : Env (List Nat) where
  streamAddress := fun _ => some 0
  cursors := fun _ => [(1, 0)]
  handleMessage := fun u _base rel bm =>
    if 900 ∈ u then (.ok ⟨rel, some 900, false, 0⟩, rel :: u)
    else (.ok ⟨rel, some 900, true, bm⟩, u)
  genRel := fun b p c => b + 100 * p + c
  transport := fun _b r => if r = 101 then some 7 else none

/-- Environment with an established stream address whose handler
classifies the staged blob at relative address `1` as an orphan of
parent `42` and handles every other address successfully. -/
def envH : Env Unit where
  streamAddress := fun _ => some 0
  cursors := fun _ => []
  handleMessage := fun u _base rel bm =>
    if rel = 1 then (.ok ⟨1, some 42, true, bm⟩, u)
    else (.ok ⟨rel, some 42, false, bm⟩, u)
  genRel := fun _b p c => 10 * p + c
  transport := fun _ r => if r = 11 then some 3 else none

/-- Environment with an established stream address, one publisher
cursor and an empty transport (every fetch misses). -/
def envM : Env Unit where
  streamAddress := fun _ => some 0
  cursors := fun _ => [(3, 0)]
  handleMessage := fun u _ _ _ => (.err, u)
  genRel := fun _b p c => 10 * p + c
  transport := fun _ _ => none

/-- Environment with an established stream address, no cursors, and a
message at the derived address `11` that is handled successfully. -/
def envY : Env Unit where
  streamAddress := fun _ => some 0
  cursors := fun _ => []
  handleMessage := fun u _base rel _ => (.ok ⟨rel, none, false, 0⟩, u)
  genRel := fun _b p c => 10 * p + c
  transport := fun _ r => if r = 11 then some 3 else none

/-! ## Helper lemmas -/

theorem zipXor_length (x k : List Nat) : (zipXor x k).length = min x.length k.length := by
  induction x generalizing k with
  | nil => cases k <;> simp [zipXor]
  | cons a xs ih =>
    cases k with
    | nil => simp [zipXor]
    | cons b ks => simp [zipXor, ih, Nat.succ_min_succ]

theorem zipXor_zipXor (x k : List Nat) (h : x.length ≤ k.length) :
    zipXor (zipXor x k) k = x := by
  induction x generalizing k with
  | nil => cases k <;> simp [zipXor]
  | cons a xs ih =>
    cases k with
    | nil => simp at h
    | cons b ks =>
      simp only [zipXor]
      refine congrArg₂ _ ?_ (ih ks (by simpa using h))
      rw [Nat.xor_assoc, Nat.xor_self, Nat.xor_zero]

theorem squeezeBytes_length (s : Spongos) (n : Nat) : (s.squeezeBytes n).length = n := by
  simp [Spongos.squeezeBytes]

theorem maskWrap_snd_length (s : Spongos) (x : List Nat) :
    ((maskWrap s x).2).length = x.length := by
  simp [maskWrap, zipXor_length, squeezeBytes_length]

theorem mask_roundtrip (s : Spongos) (x rest : List Nat) :
    maskUnwrap s ((maskWrap s x).2 ++ rest) x.length =
      some ((maskWrap s x).1, x, rest) := by
  have hlen : ((maskWrap s x).2).length = x.length := maskWrap_snd_length s x
  have htake : (((maskWrap s x).2) ++ rest).take x.length = (maskWrap s x).2 := by
    rw [← hlen]; exact List.take_left _ _
  have hdrop : (((maskWrap s x).2) ++ rest).drop x.length = rest := by
    rw [← hlen]; exact List.drop_left _ _
  have hle : x.length ≤ (((maskWrap s x).2) ++ rest).length := by
    rw [List.length_append, hlen]; omega
  simp only [maskUnwrap, if_pos hle, htake, hdrop]
  simp only [maskWrap]
  rw [zipXor_zipXor x _ (by rw [squeezeBytes_length])]

theorem mask_roundtrip' (s : Spongos) (x rest : List Nat) (n : Nat) (h : x.length = n) :
    maskUnwrap s ((maskWrap s x).2 ++ rest) n = some ((maskWrap s x).1, x, rest) :=
  h ▸ mask_roundtrip s x rest

theorem absorb_roundtrip (s : Spongos) (x rest : List Nat) :
    absorbUnwrap s (x ++ rest) x.length = some ((absorbWrap s x).1, x, rest) := by
  have hle : x.length ≤ (x ++ rest).length := by simp
  simp [absorbUnwrap, absorbWrap, if_pos hle, List.take_left, List.drop_left]

theorem absorb_roundtrip' (s : Spongos) (x : List Nat) (n : Nat) (h : x.length = n) :
    absorbUnwrap s x n = some (s.absorbBytes x, x, []) := by
  have := absorb_roundtrip s x []
  rw [List.append_nil] at this
  rw [← h, this, absorbWrap]

theorem pkOf_length (sk : Nat) : (pkOf sk).length = 32 := by
  simp [pkOf]

/-! ## Claim theorems -/

/-- Claim C4, counterexample.  The claim asserts that
`Identifier::to_bytes` emits `tag:u8 ‖ payload` (so that the encoding
of a `PskId` would be 17 bytes beginning with the tag byte `1`).  For
the concrete identifier `PskId([0; 16])` the function emits the raw
16-byte payload: the length is not `1 + 16` and the first byte is not
the tag `1`. -/
theorem c4_counterexample :
    (Identifier.to_bytes (.pskId (List.replicate 16 0))).length ≠ 1 + 16 ∧
    (Identifier.to_bytes (.pskId (List.replicate 16 0))).head? ≠ some 1 := by
  decide

/-- Claim C4, amended: `Identifier::to_bytes` emits the raw payload
with no leading discriminator byte, and `Identifier::from_bytes`
dispatches on the input length (32 bytes for an Ed25519 public key, 16
for a PskId), so for every well-formed identifier
`from_bytes(to_bytes(id)) = Ok(id)`. -/
theorem c4_bytes_roundtrip (id : Identifier) (h : id.wf) :
    Identifier.from_bytes (Identifier.to_bytes id) = .ok id := by
  cases id with
  | edPubKey pk =>
    simp only [Identifier.wf] at h
    simp [Identifier.from_bytes, Identifier.to_bytes, h]
  | pskId i =>
    simp only [Identifier.wf] at h
    simp [Identifier.from_bytes, Identifier.to_bytes, h]

/-- Witness for C4's amended round trip at the concrete identifier
`PskId([3; 16])`. -/
theorem c4_bytes_roundtrip_witness :
    Identifier.from_bytes (Identifier.to_bytes (.pskId (List.replicate 16 3))) =
      .ok (.pskId (List.replicate 16 3)) :=
  c4_bytes_roundtrip (.pskId (List.replicate 16 3)) (by decide)

/-- Claim C7: the provided `Transport::recv_message` succeeds exactly
when `recv_messages` returned a single-element list (and returns that
element); an empty list gives the "not found" `AddressError` and two or
more messages give the "more than one" `AddressError`. -/
theorem c7_recv_message (addr : Address) (l : List Nat) (m : Nat)
    (fetched : Except LetsError (List Nat)) (h : fetched = .ok l) :
    (recv_message addr fetched = .ok m ↔ l = [m]) ∧
    (l = [] →
      recv_message addr fetched = .error (.addressError "not found in transport" addr)) ∧
    (2 ≤ l.length →
      recv_message addr fetched = .error (.addressError "More than one found" addr)) := by
  subst h
  match l with
  | [] => simp [recv_message]
  | [a] => simp [recv_message, eq_comm]
  | a :: b :: t =>
    refine ⟨?_, by simp, fun _ => ?_⟩
    · constructor
      · intro hok
        exfalso
        simp only [recv_message] at hok
        rw [show (a :: b :: t).dropLast = a :: (b :: t).dropLast from rfl] at hok
        rcases hl : (a :: b :: t).getLast? with _ | x
        · simp [hl] at hok
        · simp [hl, List.isEmpty] at hok
      · intro he; simp at he
    · simp only [recv_message]
      rw [show (a :: b :: t).dropLast = a :: (b :: t).dropLast from rfl]
      rcases hl : (a :: b :: t).getLast? with _ | x
      · exact absurd hl (by simp [List.getLast?_eq_getLast])
      · simp [hl, List.isEmpty]

/-- Witness for C7 at the concrete fetched list `[5]`. -/
theorem c7_recv_message_witness :
    (recv_message ⟨0, 0⟩ (.ok [5]) = .ok 5 ↔ [5] = [5]) ∧
    ([5] = ([] : List Nat) →
      recv_message ⟨0, 0⟩ (.ok [5]) = .error (.addressError "not found in transport" ⟨0, 0⟩)) ∧
    (2 ≤ [5].length →
      recv_message ⟨0, 0⟩ (.ok [5]) = .error (.addressError "More than one found" ⟨0, 0⟩)) :=
  c7_recv_message ⟨0, 0⟩ [5] 5 (.ok [5]) rfl

/-- Claim C8: reading the `oneof` discriminator during identifier
unwrap, tag 0 absorbs a 32-byte Ed25519 public key, tag 1 mask-decodes
a 16-byte PskId, and every other tag value fails hard with `BadOneof`
without producing an identifier. -/
theorem c8_unwrap_new (s : Spongos) (t : Nat) (rest : List Nat) :
    (t = 0 → 32 ≤ rest.length →
      unwrap_new s (t :: rest) =
        .ok (.edPubKey (rest.take 32),
          (s.absorbBytes [t]).absorbBytes (rest.take 32), rest.drop 32)) ∧
    (t = 1 → 16 ≤ rest.length →
      unwrap_new s (t :: rest) =
        .ok (.pskId (zipXor (rest.take 16) ((s.absorbBytes [t]).squeezeBytes 16)),
          (s.absorbBytes [t]).absorbBytes (rest.take 16), rest.drop 16)) ∧
    (2 ≤ t → unwrap_new s (t :: rest) = .error .badOneof) := by
  have h1 : absorbUnwrap s (t :: rest) 1 = some (s.absorbBytes [t], [t], rest) := by
    simp [absorbUnwrap]
  refine ⟨?_, ?_, ?_⟩
  · rintro rfl hlen
    simp [unwrap_new, h1, absorbUnwrap, hlen]
  · rintro rfl hlen
    simp [unwrap_new, h1, maskUnwrap, hlen]
  · intro ht
    have ht0 : t ≠ 0 := by omega
    have ht1 : t ≠ 1 := by omega
    simp [unwrap_new, h1, ht0, ht1]

/-- Witness for C8: each of the three discriminator behaviours at a
concrete input (tag 0 with 32 payload bytes, tag 1 with 16 payload
bytes, and the out-of-schema tag 5). -/
theorem c8_unwrap_new_witness :
    (unwrap_new ⟨[]⟩ (0 :: List.replicate 32 9) =
      .ok (.edPubKey (List.replicate 32 9),
        (Spongos.absorbBytes ⟨[]⟩ [0]).absorbBytes (List.replicate 32 9), [])) ∧
    (unwrap_new ⟨[]⟩ (1 :: List.replicate 16 9) =
      .ok (.pskId (zipXor (List.replicate 16 9)
            ((Spongos.absorbBytes ⟨[]⟩ [1]).squeezeBytes 16)),
        (Spongos.absorbBytes ⟨[]⟩ [1]).absorbBytes (List.replicate 16 9), [])) ∧
    (unwrap_new ⟨[]⟩ [5] = .error .badOneof) := by
  refine ⟨?_, ?_, ?_⟩
  · have := (c8_unwrap_new ⟨[]⟩ 0 (List.replicate 32 9)).1 rfl (by decide)
    simpa using this
  · have := (c8_unwrap_new ⟨[]⟩ 1 (List.replicate 16 9)).2.1 rfl (by decide)
    simpa using this
  · exact (c8_unwrap_new ⟨[]⟩ 5 []).2.2 (by decide)

/-- Claim C9: for every identifier, the length computed by the sizeof
context equals the number of bytes the wrap context emits, for every
initial sponge state. -/
theorem c9_sizeof_eq_wrap_length (s : Spongos) (id : Identifier) :
    idSizeof id = ((idWrap s id).2).length := by
  cases id with
  | edPubKey pk => simp [idSizeof, idWrap, absorbWrap, Nat.add_comm]
  | pskId i =>
    simp [idSizeof, idWrap, absorbWrap, maskWrap, zipXor_length,
      squeezeBytes_length, Nat.add_comm]

/-- Claim C3: for every identity and every initial sponge state,
unwrapping the bytes produced by wrapping an `Announce` message over
the same initial state succeeds, with the recovered `author_id` equal
to the identity's identifier (signature verification succeeding — a
verification failure would produce an error instead of `ok`) and the
final sponge states of the two contexts agreeing. -/
theorem c3_announce_roundtrip (s0 : Spongos) (sk : Nat) :
    unwrapAnnounce s0 (wrapAnnounce s0 ⟨sk⟩).2 =
      .ok ((wrapAnnounce s0 ⟨sk⟩).1, ⟨Identity.identifier ⟨sk⟩⟩) := by
  simp only [wrapAnnounce, unwrapAnnounce, absorbWrap, Identity.identifier,
    Identifier.tag, Identifier.payload]
  rw [mask_roundtrip' s0 [0] _ 1 rfl]
  simp only [List.head?, if_true]
  rw [mask_roundtrip' _ (pkOf sk) _ 32 (pkOf_length sk)]
  simp only [if_true]
  rw [absorb_roundtrip' _ _ 64 (by simp [signHash, squeezeBytes_length])]
  simp [verifySig, signHash]

theorem scanBranch_linked_isSome :
    ∀ (msgs : List IterMsg) (anchor : Option Nat) m,
      m ∈ scanBranch anchor msgs → m.linked.isSome = true := by
  intro msgs
  induction msgs with
  | nil => intro anchor m hm; simp [scanBranch] at hm
  | cons a rest ih =>
    intro anchor m hm
    simp only [scanBranch] at hm
    rcases ha : a.linked with _ | l
    · rw [ha] at hm
      exact ih anchor m hm
    · rw [ha] at hm
      dsimp only at hm
      by_cases hif : l = anchor.getD l
      · rw [if_pos hif] at hm
        rcases List.mem_cons.mp hm with h | h
        · rw [h, ha]; rfl
        · exact ih _ m h
      · rw [if_neg hif] at hm
        exact ih _ m hm

theorem scanBranch_head_linked (b : Nat) :
    ∀ (msgs : List IterMsg) m,
      (scanBranch (some b) msgs).head? = some m → m.linked = some b := by
  intro msgs
  induction msgs with
  | nil => intro m hm; simp [scanBranch] at hm
  | cons a rest ih =>
    intro m hm
    simp only [scanBranch] at hm
    rcases ha : a.linked with _ | l
    · rw [ha] at hm; exact ih m hm
    · rw [ha] at hm
      dsimp only at hm
      by_cases hif : l = (some b).getD l
      · rw [if_pos hif] at hm
        simp only [List.head?, Option.some.injEq] at hm
        rw [← hm, ha]
        simpa using hif
      · rw [if_neg hif] at hm
        exact ih m hm

theorem scanBranch_chain :
    ∀ (msgs : List IterMsg) (anchor : Option Nat),
      linkedChain (scanBranch anchor msgs) := by
  intro msgs
  induction msgs with
  | nil => intro anchor; simp [scanBranch, linkedChain]
  | cons a rest ih =>
    intro anchor
    simp only [scanBranch]
    rcases ha : a.linked with _ | l
    · exact ih anchor
    · dsimp only
      by_cases hif : l = anchor.getD l
      · rw [if_pos hif]
        rcases hys : scanBranch (some a.addressRel) rest with _ | ⟨y, t⟩
        · simp [linkedChain]
        · have hy : y.linked = some a.addressRel :=
            scanBranch_head_linked a.addressRel rest y (by rw [hys]; rfl)
          have hc := ih (some a.addressRel)
          rw [hys] at hc
          simp only [linkedChain]
          exact ⟨hy, hc⟩
      · rw [if_neg hif]
        exact ih _

theorem scanBranch_sublist :
    ∀ (msgs : List IterMsg) (anchor : Option Nat),
      List.Sublist (scanBranch anchor msgs) msgs := by
  intro msgs
  induction msgs with
  | nil => intro anchor; simp [scanBranch]
  | cons a rest ih =>
    intro anchor
    simp only [scanBranch]
    rcases ha : a.linked with _ | l
    · exact List.Sublist.cons a (ih anchor)
    · dsimp only
      by_cases hif : l = anchor.getD l
      · rw [if_pos hif]
        exact List.Sublist.cons₂ a (ih _)
      · rw [if_neg hif]
        exact List.Sublist.cons a (ih _)

/-- Claim C6: in the stream produced by `filter_branch(predicate)` —
skip while the predicate holds, then keep the linear branch anchored at
the first surviving message — every yielded message has a present
`linked_msg_address`, every yielded message after the first links to
the relative address of the immediately previously yielded message, and
the yielded messages are a subsequence of the post-skip messages
(linkage-breaking messages, including those with no linked address, are
silently dropped rather than yielded). -/
theorem c6_filter_branch (pred : IterMsg → Bool) (msgs : List IterMsg) :
    (∀ m ∈ filter_branch pred msgs, m.linked.isSome = true) ∧
    linkedChain (filter_branch pred msgs) ∧
    List.Sublist (filter_branch pred msgs) (List.dropWhile pred msgs) :=
  ⟨fun m hm => scanBranch_linked_isSome _ none m hm,
    scanBranch_chain _ none,
    scanBranch_sublist _ none⟩

/-- Claim C2: with a staged blob at relative address `rel`, if
`handle_message` classifies it as an orphan with declared parent `l`,
the pair `(rel, retained message)` is pushed to the back of
`msg_queue[l]` and the step yields nothing (it proceeds to the next
recursion); and if `handle_message` succeeds with a non-orphan result
`m`, the entire queue `msg_queue[m.address.relative]` is drained into
`stage` in the very step that returns `Some(Ok(m))`. -/
theorem c2_orphan_queue {U : Type} (env : Env U) (fuel : Nat) (s : MState U)
    (rel bmsg : Nat) (stageRest : List (Nat × Nat)) (base : Nat)
    (hst : s.stage = (rel, bmsg) :: stageRest)
    (hsa : env.streamAddress s.user = some base) :
    (∀ m u' l, env.handleMessage s.user base rel bmsg = (.ok m, u') →
      m.orphanContent = true → m.linked = some l →
      next env (fuel + 1) s =
        next env fuel ⟨u', s.ids_stack, mqPush s.msg_queue l (rel, m.orphanMsg),
          stageRest, s.successful_round⟩) ∧
    (∀ m u', env.handleMessage s.user base rel bmsg = (.ok m, u') →
      m.orphanContent = false ∨ m.linked = none →
      next env (fuel + 1) s =
        .yield (.ok m) ⟨u', s.ids_stack, (mqRemove s.msg_queue m.addressRel).2,
          stageRest ++ ((mqRemove s.msg_queue m.addressRel).1.getD []),
          s.successful_round⟩) := by
  obtain ⟨u, ids, mq, stg, sr⟩ := s
  dsimp only at hst hsa ⊢
  subst hst
  constructor
  · intro m u' l hh ho hl
    simp only [next]
    rw [hsa]
    dsimp only
    rw [hh]
    dsimp only
    rw [ho, hl]
  · intro m u' hh hcase
    simp only [next]
    rw [hsa]
    dsimp only
    rw [hh]
    dsimp only
    rcases hcase with ho | hl
    · rw [ho]
    · rw [hl]
      cases hoc : m.orphanContent <;> rfl

/-- Witness for C2 in the concrete environment `envH`: the staged blob
at relative address 1 is classified as an orphan of parent 42 and gets
queued; the staged blob at relative address 2 is handled successfully
and drains the pending queue entry for key 2 while being yielded. -/
theorem c2_orphan_queue_witness :
    (next envH 1 ⟨(), [], [], [(1, 77)], false⟩ =
      next envH 0 ⟨(), [], mqPush [] 42 (1, 77), [], false⟩) ∧
    (next envH 1 ⟨(), [], [(2, [(9, 9)])], [(2, 88)], false⟩ =
      .yield (.ok ⟨2, some 42, false, 88⟩)
        ⟨(), [], (mqRemove [(2, [(9, 9)])] 2).2,
          [] ++ ((mqRemove [(2, [(9, 9)])] 2).1.getD []), false⟩) :=
  ⟨(c2_orphan_queue envH 0 ⟨(), [], [], [(1, 77)], false⟩ 1 77 [] 0 rfl rfl).1
      ⟨1, some 42, true, 77⟩ () 42 rfl rfl rfl,
    (c2_orphan_queue envH 0 ⟨(), [], [(2, [(9, 9)])], [(2, 88)], false⟩ 2 88 [] 0 rfl rfl).2
      ⟨2, some 42, false, 88⟩ () rfl (Or.inl rfl)⟩

theorem next_yield_ok {U : Type} (env : Env U) :
    ∀ (fuel : Nat) (s : MState U) (r : Except Unit IterMsg) (s' : MState U),
      next env fuel s = .yield r s' → ∃ m, r = .ok m := by
  intro fuel
  induction fuel with
  | zero =>
    intro s r s' h
    simp [next] at h
  | succ n ih =>
    intro s r s' h
    obtain ⟨u, ids, mq, stg, sr⟩ := s
    simp only [next] at h
    split at h
    · split at h
      · simp at h
      · split at h
        · split at h
          · exact ih _ r s' h
          · cases h; exact ⟨_, rfl⟩
          · cases h; exact ⟨_, rfl⟩
        · exact ih _ r s' h
    · split at h
      · split at h
        · simp at h
        · split at h
          · exact ih _ r s' h
          · split at h
            · simp at h
            · exact ih _ r s' h
      · split at h
        · simp at h
        · split at h
          · simp at h
          · split at h
            · exact ih _ r s' h
            · split at h
              · simp at h
              · exact ih _ r s' h

/-- Claim C5: when `next` probes a derived address with an empty stage
and the transport fetch fails, it returns `None` precisely when
`ids_stack` is exhausted and no fetch in the current round succeeded,
and otherwise continues with the next probe — in both the
popped-from-`ids_stack` case and the fresh-round case — and no
activation of `next` ever yields an `Err` item (transport errors are
treated as the message being missing). -/
theorem c5_probe_miss {U : Type} (env : Env U) :
    (∀ (fuel : Nat) (s : MState U) (p c base : Nat),
      s.stage = [] → s.ids_stack.getLast? = some (p, c) →
      env.streamAddress s.user = some base →
      env.transport base (env.genRel base p (c + 1)) = none →
      ((s.ids_stack.dropLast = [] ∧ s.successful_round = false →
          next env (fuel + 1) s = .finished ⟨s.user, [], s.msg_queue, [], false⟩) ∧
        (¬(s.ids_stack.dropLast = [] ∧ s.successful_round = false) →
          next env (fuel + 1) s =
            next env fuel
              ⟨s.user, s.ids_stack.dropLast, s.msg_queue, [], s.successful_round⟩))) ∧
    (∀ (fuel : Nat) (s : MState U) (p c : Nat) (cs : List (Nat × Nat)) (base : Nat),
      s.stage = [] → s.ids_stack = [] →
      env.cursors s.user = (p, c) :: cs →
      env.streamAddress s.user = some base →
      env.transport base (env.genRel base p (c + 1)) = none →
      ((cs = [] → next env (fuel + 1) s = .finished ⟨s.user, [], s.msg_queue, [], false⟩) ∧
        (cs ≠ [] → next env (fuel + 1) s = next env fuel ⟨s.user, cs, s.msg_queue, [], false⟩))) ∧
    (∀ (fuel : Nat) (s : MState U) (r : Except Unit IterMsg) (s' : MState U),
      next env fuel s = .yield r s' → ∃ m, r = .ok m) := by
  refine ⟨?_, ?_, next_yield_ok env⟩
  · intro fuel s p c base hst hl hsa htp
    obtain ⟨u, ids, mq, stg, sr⟩ := s
    dsimp only at hst hl hsa htp ⊢
    subst hst
    constructor
    · rintro ⟨hd, hsr⟩
      simp only [next]
      rw [hl]
      dsimp only
      rw [hsa]
      dsimp only
      rw [htp]
      dsimp only
      rw [hd, hsr]
    · intro hn
      simp only [next]
      rw [hl]
      dsimp only
      rw [hsa]
      dsimp only
      rw [htp]
      dsimp only
      rcases hdl : ids.dropLast with _ | ⟨a, t⟩
      · cases hsr : sr with
        | false => exact absurd ⟨hdl, hsr⟩ hn
        | true => rfl
      · rfl
  · intro fuel s p c cs base hst hids hcur hsa htp
    obtain ⟨u, ids, mq, stg, sr⟩ := s
    dsimp only at hst hids hcur hsa htp ⊢
    subst hst
    subst hids
    constructor
    · rintro rfl
      simp only [next, List.getLast?]
      rw [hcur]
      dsimp only
      rw [hsa]
      dsimp only
      rw [htp]
    · intro hcs
      rcases cs with _ | ⟨a, t⟩
      · exact absurd rfl hcs
      · simp only [next, List.getLast?]
        rw [hcur]
        dsimp only
        rw [hsa]
        dsimp only
        rw [htp]

/-- Witness for C5: in `envY` a probe miss with a non-empty remaining
stack continues probing; in `envM` a fresh-round probe miss with no
further cursors ends the stream; and the concrete yield produced by
`envY` from a staged fetch is an `Ok` item. -/
theorem c5_probe_miss_witness :
    (next envY 1 ⟨(), [(2, 5)], [], [], true⟩ = next envY 0 ⟨(), [], [], [], true⟩) ∧
    (next envM 1 (initState ()) = .finished ⟨(), [], [], [], false⟩) ∧
    (∃ m, (Except.ok ⟨11, none, false, 0⟩ : Except Unit IterMsg) = .ok m) :=
  ⟨((c5_probe_miss envY).1 0 ⟨(), [(2, 5)], [], [], true⟩ 2 5 0 rfl rfl rfl rfl).2
      (by simp),
    ((c5_probe_miss envM).2.1 0 (initState ()) 3 0 [] 0 rfl rfl rfl rfl rfl).1 rfl,
    (c5_probe_miss envY).2.2 2 ⟨(), [(1, 0)], [], [], false⟩ (.ok ⟨11, none, false, 0⟩)
      ⟨(), [], [], [], true⟩ rfl⟩

/-- Claim C10, counterexample.  The claim asserts that whenever
`stream_address()` is `None` or `cursors()` is empty, `next` returns
`None` immediately without fetching and without modifying `stage` or
`msg_queue`, on every call.  Both parts fail on the code: in `envW`
(`stream_address` is `None`) a call with a staged entry pops it —
`next` does return `None` but `stage` shrinks from `[(5, 9)]` to `[]`,
because the stage entry is popped before `stream_address` is consulted;
and in `envY` (`cursors()` is empty) a call with a pending `ids_stack`
entry probes the transport, fetches the message at the derived address
`11` and yields it — returning `Some(Ok(..))`, not `None`. -/
theorem c10_counterexample :
    (next envW 1 ⟨(), [], [], [(5, 9)], false⟩ = .finished ⟨(), [], [], [], false⟩) ∧
    (next envY 2 ⟨(), [(1, 0)], [], [], false⟩ =
      .yield (.ok ⟨11, none, false, 0⟩) ⟨(), [], [], [], true⟩) :=
  ⟨rfl, rfl⟩

/-- Claim C10, amended: if `stage` is empty and either
`stream_address()` is `None`, or both `ids_stack` and `cursors()` are
empty, then `next` returns `None` without consulting the transport (the
result is the same for every transport) and without modifying `stage`,
`msg_queue` or the user.  (The stage-empty condition is needed because
a staged entry is popped — and may even be yielded — before
`stream_address`/`cursors` matter; the `ids_stack` condition is needed
because pending stack entries are still probed when a stream address is
present even if `cursors()` is empty.) -/
theorem c10_empty_sources {U : Type} (env : Env U) (fuel : Nat) (s : MState U)
    (hst : s.stage = [])
    (hcond : env.streamAddress s.user = none ∨
      (s.ids_stack = [] ∧ env.cursors s.user = [])) :
    ∃ s', (∀ tp, next { env with transport := tp } (fuel + 1) s = .finished s') ∧
      s'.stage = [] ∧ s'.msg_queue = s.msg_queue ∧ s'.user = s.user := by
  obtain ⟨u, ids, mq, stg, sr⟩ := s
  dsimp only at hst hcond ⊢
  subst hst
  rcases hcond with hsa | ⟨hids, hcur⟩
  · rcases hl : ids.getLast? with _ | ⟨p, c⟩
    · rcases hc : env.cursors u with _ | ⟨⟨p, c⟩, cs⟩
      · refine ⟨⟨u, [], mq, [], false⟩, fun tp => ?_, rfl, rfl, rfl⟩
        simp only [next]
        rw [hl]
        dsimp only
        rw [hc]
      · refine ⟨⟨u, cs, mq, [], false⟩, fun tp => ?_, rfl, rfl, rfl⟩
        simp only [next]
        rw [hl]
        dsimp only
        rw [hc]
        dsimp only
        rw [hsa]
    · refine ⟨⟨u, ids.dropLast, mq, [], sr⟩, fun tp => ?_, rfl, rfl, rfl⟩
      simp only [next]
      rw [hl]
      dsimp only
      rw [hsa]
  · subst hids
    refine ⟨⟨u, [], mq, [], false⟩, fun tp => ?_, rfl, rfl, rfl⟩
    simp only [next, List.getLast?]
    rw [hcur]

/-- Witness for C10's amended statement: in `envW` (no stream address)
the iterator's initial state returns `None` for every transport,
leaving `stage` and `msg_queue` unchanged. -/
theorem c10_empty_sources_witness :
    ∃ s', (∀ tp, next { envW with transport := tp } 1 (initState ()) = .finished s') ∧
      s'.stage = [] ∧ s'.msg_queue = (initState ()).msg_queue ∧
      s'.user = (initState ()).user :=
  c10_empty_sources envW 0 (initState ()) rfl (Or.inl rfl)

theorem next_okChain {U : Type} (env : Env U) (K : U → List Nat)
    (h1 : OrphanWhenUnknown env K) (h2 : SnapshotGrowth env K)
    (h2o : OrphanNoGrowth env K) (h3 : ErrNoGrowth env K) :
    ∀ (fuel : Nat) (s : MState U) (S : List Nat),
      (∀ x, x ∈ K s.user → x ∈ S) → NextOkChain K S (next env fuel s) := by
  intro fuel
  induction fuel with
  | zero =>
    intro s S hKS
    simp only [next, NextOkChain]
  | succ n ih =>
    intro s S hKS
    obtain ⟨u, ids, mq, stg, sr⟩ := s
    have hKu : ∀ x, x ∈ K u → x ∈ S := hKS
    simp only [next]
    rcases stg with _ | ⟨⟨rel, bmsg⟩, stageRest⟩
    · dsimp only
      cases hl : ids.getLast? with
      | none =>
        dsimp only
        cases hc : env.cursors u with
        | nil =>
          dsimp only [NextOkChain]
          exact hKu
        | cons pc cs =>
          obtain ⟨p, c⟩ := pc
          dsimp only
          cases hsa : env.streamAddress u with
          | none =>
            dsimp only [NextOkChain]
            exact hKu
          | some base =>
            dsimp only
            cases htp : env.transport base (env.genRel base p (c + 1)) with
            | none =>
              dsimp only
              rcases cs with _ | ⟨a, t⟩
              · dsimp only [NextOkChain]
                exact hKu
              · exact ih ⟨u, a :: t, mq, [], false⟩ S hKu
            | some msg =>
              dsimp only
              exact ih ⟨u, cs, mq, [(env.genRel base p (c + 1), msg)], true⟩ S hKu
      | some pc =>
        obtain ⟨p, c⟩ := pc
        dsimp only
        cases hsa : env.streamAddress u with
        | none =>
          dsimp only [NextOkChain]
          exact hKu
        | some base =>
          dsimp only
          cases htp : env.transport base (env.genRel base p (c + 1)) with
          | none =>
            dsimp only
            cases hdl : ids.dropLast with
            | nil =>
              cases sr with
              | false =>
                dsimp only [NextOkChain]
                exact hKu
              | true =>
                exact ih ⟨u, [], mq, [], true⟩ S hKu
            | cons a t =>
              exact ih ⟨u, a :: t, mq, [], sr⟩ S hKu
          | some msg =>
            dsimp only
            exact ih ⟨u, ids.dropLast, mq, [(env.genRel base p (c + 1), msg)], true⟩ S hKu
    · dsimp only
      cases hsa : env.streamAddress u with
      | none =>
        dsimp only [NextOkChain]
        exact hKu
      | some base =>
        dsimp only
        rcases hhm : env.handleMessage u base rel bmsg with ⟨res, u'⟩
        rcases res with m | _
        · dsimp only
          cases ho : m.orphanContent with
          | false =>
            dsimp only [NextOkChain]
            refine ⟨m, rfl, ?_, ?_⟩
            · intro p hp
              by_cases hpK : p ∈ K u
              · exact hKu p hpK
              · exact absurd (h1 u base rel bmsg m u' hhm p hp hpK) (by rw [ho]; simp)
            · intro x hx
              rcases h2 u base rel bmsg m u' hhm x hx with hxu | hxm
              · exact Or.inl (hKu x hxu)
              · exact Or.inr hxm
          | true =>
            cases hlk : m.linked with
            | none =>
              dsimp only [NextOkChain]
              refine ⟨m, rfl, ?_, ?_⟩
              · intro p hp
                rw [hlk] at hp
                exact absurd hp (by simp)
              · intro x hx
                rcases h2 u base rel bmsg m u' hhm x hx with hxu | hxm
                · exact Or.inl (hKu x hxu)
                · exact Or.inr hxm
            | some l =>
              dsimp only
              exact ih ⟨u', ids, mqPush mq l (rel, m.orphanMsg), stageRest, sr⟩ S
                (fun x hx => hKu x (h2o u base rel bmsg m u' hhm ho x hx))
        · exact ih ⟨u', ids, mq, stageRest, sr⟩ S
            (fun x hx => hKu x (h3 u base rel bmsg u' hhm x hx))

theorem runY_topo {U : Type} (env : Env U) (K : U → List Nat)
    (h1 : OrphanWhenUnknown env K) (h2 : SnapshotGrowth env K)
    (h2o : OrphanNoGrowth env K) (h3 : ErrNoGrowth env K) :
    ∀ (k fuel : Nat) (s : MState U) (S : List Nat),
      (∀ x, x ∈ K s.user → x ∈ S) → topoChain S (runY env k fuel s).1 := by
  intro k
  induction k with
  | zero =>
    intro fuel s S hKS
    simp [runY, topoChain]
  | succ n ih =>
    intro fuel s S hKS
    have hok := next_okChain env K h1 h2 h2o h3 fuel s S hKS
    simp only [runY]
    cases hnx : next env fuel s with
    | yield r s' =>
      rw [hnx] at hok
      dsimp only [NextOkChain] at hok
      obtain ⟨m, rfl, hlp, hgrow⟩ := hok
      dsimp only
      simp only [topoChain]
      refine ⟨hlp, ?_⟩
      refine ih fuel s' (m.addressRel :: S) ?_
      intro x hx
      rcases hgrow x hx with hxS | hxm
      · exact List.mem_cons_of_mem _ hxS
      · rw [hxm]
        exact List.mem_cons_self _ _
    | finished s' =>
      simp [topoChain]
    | outOfFuel s' =>
      simp [topoChain]

/-- Claim C1, counterexample.  The claim asserts that, assuming
`handle_message` reports `Orphan` whenever the declared parent's
snapshot is unknown, every yielded message's `linked_msg_address` is
absent or equal to the address of a message yielded *earlier in the
sequence*.  In `envC` (user state = known-snapshot set, `K = id`) the
handler satisfies that assumption — together with the snapshot-growth
conditions — yet a run started with the parent address `900` already
known (as the snapshot of an announcement handled before iterating)
yields as its very first message one whose `linked_msg_address` is
`900`, which no earlier yielded message carries, refuting the claim's
conclusion (`topoChain []`, i.e. parents must come from earlier yields
only). -/
theorem c1_counterexample :
    OrphanWhenUnknown envC (fun u => u) ∧
    SnapshotGrowth envC (fun u => u) ∧
    OrphanNoGrowth envC (fun u => u) ∧
    ErrNoGrowth envC (fun u => u) ∧
    ¬ topoChain [] (runY envC 1 2 (initState [900])).1 := by
  refine ⟨?_, ?_, ?_, ?_, ?_⟩
  · intro u b rel bm m u' h p hp hnp
    by_cases h9 : 900 ∈ u
    · simp only [envC, if_pos h9, Prod.mk.injEq, HandleRes.ok.injEq] at h
      obtain ⟨hm, hu⟩ := h
      subst hm
      injection hp with hp900
      subst hp900
      exact absurd h9 hnp
    · simp only [envC, if_neg h9, Prod.mk.injEq, HandleRes.ok.injEq] at h
      obtain ⟨hm, hu⟩ := h
      subst hm
      rfl
  · intro u b rel bm m u' h x hx
    by_cases h9 : 900 ∈ u
    · simp only [envC, if_pos h9, Prod.mk.injEq, HandleRes.ok.injEq] at h
      obtain ⟨hm, hu⟩ := h
      subst hm
      subst hu
      rcases List.mem_cons.mp hx with hxr | hxu
      · exact Or.inr hxr
      · exact Or.inl hxu
    · simp only [envC, if_neg h9, Prod.mk.injEq, HandleRes.ok.injEq] at h
      obtain ⟨hm, hu⟩ := h
      subst hu
      exact Or.inl hx
  · intro u b rel bm m u' h ho x hx
    by_cases h9 : 900 ∈ u
    · simp only [envC, if_pos h9, Prod.mk.injEq, HandleRes.ok.injEq] at h
      obtain ⟨hm, hu⟩ := h
      subst hm
      simp at ho
    · simp only [envC, if_neg h9, Prod.mk.injEq, HandleRes.ok.injEq] at h
      obtain ⟨hm, hu⟩ := h
      subst hu
      exact hx
  · intro u b rel bm u' h x hx
    by_cases h9 : 900 ∈ u <;> simp [envC, h9] at h
  · have hrun : (runY envC 1 2 (initState [900])).1 = [⟨101, some 900, false, 0⟩] := rfl
    intro hchain
    rw [hrun] at hchain
    simp only [topoChain] at hchain
    exact absurd (hchain.1 900 rfl) (List.not_mem_nil 900)

/-- Claim C1, amended: under the hypothesis that `handle_message`
reports a message as `Orphan` whenever its declared parent's snapshot
is not yet known (together with the spec's snapshot-store evolution: a
successful handling inserts at most the handled message's own address,
an orphaned or failed handling inserts nothing), every message yielded
by the `Messages` iterator has a `linked_msg_address` that is absent,
or equal to the relative address of a message yielded earlier in the
sequence, *or an address whose snapshot was already known to the user
when iteration started* (for example the announcement's).  The last
disjunct is what the counterexample forces. -/
theorem c1_topological_order {U : Type} (env : Env U) (K : U → List Nat)
    (h1 : OrphanWhenUnknown env K) (h2 : SnapshotGrowth env K)
    (h2o : OrphanNoGrowth env K) (h3 : ErrNoGrowth env K)
    (u : U) (k fuel : Nat) :
    topoChain (K u) (runY env k fuel (initState u)).1 :=
  runY_topo env K h1 h2 h2o h3 k fuel (initState u) (K u) (fun _ hx => hx)

/-- Witness for C1's amended statement in the degenerate environment
`envW` (every handling fails, no snapshots are known). -/
theorem c1_topological_order_witness :
    topoChain [] (runY envW 3 3 (initState ())).1 :=
  c1_topological_order envW (fun _ => [])
    (fun u b rel bm m u' h => by simp [envW] at h)
    (fun u b rel bm m u' h => by simp [envW] at h)
    (fun u b rel bm m u' h => by simp [envW] at h)
    (fun u b rel bm u' h x hx => by simp at hx)
    () 3 3

end Streams

